import Mathlib

/-!
Verification development for the agent-chat memory subsystem of the
inkhat repository (src/apps/agent-chat/AgentChat.tsx, the multi-thread
AgentChatApp, version 0.3.0).

The definitions below are shallow embeddings of the TypeScript source:
JavaScript arrays become Lean lists, objects become structures, `Date`
timestamps become natural numbers supplied as a `now` parameter,
JavaScript numbers used for relationship strengths become rationals,
optional / possibly-undefined arguments become `Option`, and the
hierarchical document store becomes an association list from string keys
to document values.
-/

namespace Inkhat

/-- JavaScript truthiness of a possibly-undefined string
(`undefined` and the empty string are falsy). -/
def strTruthy : Option String → Bool
  | none => false
  | some s => !(s == "")

/-- The JavaScript expression `v || d` for a possibly-undefined string `v`
and a string default `d`. -/
def jsOrString (v : Option String) (d : String) : String :=
  match v with
  | some s => if s == "" then d else s
  | none => d

/-- `Option.or` written out: the first operand when it is `some`,
otherwise the second. -/
def optOrElse {α : Type} (o o' : Option α) : Option α :=
  match o with
  | some v => some v
  | none => o'

/-- JavaScript `Array.prototype.findIndex`, returning the index together
with the found element (`none` plays the role of index `-1`). -/
def findWithIndex {α : Type} (p : α → Bool) : List α → Option (Nat × α)
  | [] => none
  | x :: xs =>
    if p x then some (0, x)
    else (findWithIndex p xs).map (fun ix => (ix.1 + 1, ix.2))

/-- Properties of an entity: a JavaScript object used as a key-value map
(`Record<string, unknown>` in the source), with property values
represented by strings. -/
abbrev Props := List (String × String)

/-- Reading a key of a JavaScript object represented as `Props`. -/
def propLookup (ps : Props) (k : String) : Option String :=
  (ps.find? (fun kv => kv.fst == k)).map (fun kv => kv.snd)

/-- JavaScript object spread `{...a, ...b}`: the keys of `a` in order,
with values overridden by `b` where present, followed by the keys of `b`
that are not in `a`. -/
def spreadMerge (a b : Props) : Props :=
  a.map (fun kv =>
    match propLookup b kv.fst with
    | some v => (kv.fst, v)
    | none => kv)
  ++ b.filter (fun kv => (propLookup a kv.fst).isNone)

/-- One entry of `EntityNode.relationships` in the source. -/
structure Relationship where
  targetId : String
  relationship : String
  strength : ℚ
deriving Repr, DecidableEq

/-- `EntityNode` of the source. The tool-call path can leave `name` and
`description` undefined, hence `Option`. `type` is an arbitrary string at
runtime (the TypeScript union is not enforced on tool arguments). -/
structure EntityNode where
  id : String
  type : String
  name : Option String
  description : Option String
  properties : Props
  relationships : List Relationship
deriving Repr, DecidableEq

/-- `EntityMemory` of the source: the shared entity graph. -/
structure EntityMemory where
  nodes : List EntityNode
  lastUpdated : Nat
deriving Repr, DecidableEq

/-- Arguments of the `create_entity` tool call; every field except `id`
may be absent from the LLM-supplied payload. -/
structure CreateEntityArgs where
  id : String
  type : Option String
  name : Option String
  description : Option String
  properties : Option Props
deriving Repr, DecidableEq

/-- Arguments of the `add_relationship` tool call. -/
structure AddRelationshipArgs where
  sourceId : String
  targetId : String
  relationship : String
  strength : Option ℚ
deriving Repr, DecidableEq

/-- The `case 'create_entity'` branch of `executeEntityTool`
(AgentChat.tsx lines 685-710): upsert of an entity node. When the id
already exists the fields are merged (name and description via `||`,
properties via object spread, relationships untouched); otherwise a new
node with an empty relationship list is appended. -/
def jsCreateEntity (args : CreateEntityArgs) (now : Nat) (mem : EntityMemory) :
    EntityMemory × String :=
  match findWithIndex (fun n => n.id == args.id) mem.nodes with
  | some (i, old) =>
    let merged : EntityNode :=
      { old with
        name := if strTruthy args.name then args.name else old.name
        description := if strTruthy args.description then args.description else old.description
        properties := spreadMerge old.properties (args.properties.getD []) }
    ({ nodes := mem.nodes.set i merged, lastUpdated := now },
      "Updated existing entity: " ++ args.id)
  | none =>
    let newNode : EntityNode :=
      { id := args.id
        type := jsOrString args.type "other"
        name := args.name
        description := args.description
        properties := args.properties.getD []
        relationships := [] }
    ({ nodes := mem.nodes ++ [newNode], lastUpdated := now },
      "Created entity: " ++ (args.name.getD "undefined") ++ " (" ++ args.id ++ ")")

/-- The `case 'delete_entity'` branch of `executeEntityTool`
(AgentChat.tsx lines 730-746): strips, from every node, the relationships
whose target is the deleted id, then splices the node out. -/
def jsDeleteEntity (id : String) (now : Nat) (mem : EntityMemory) :
    EntityMemory × String :=
  match findWithIndex (fun n => n.id == id) mem.nodes with
  | none => (mem, "Entity not found: " ++ id)
  | some (i, _) =>
    let stripped := mem.nodes.map (fun n =>
      { n with relationships := n.relationships.filter (fun r => !(r.targetId == id)) })
    ({ nodes := stripped.eraseIdx i, lastUpdated := now }, "Deleted entity: " ++ id)

/-- The strength computation of the `add_relationship` branch:
`typeof args.strength === 'number' ? Math.max(0, Math.min(1, args.strength)) : 0.5`. -/
def jsStrength (strength : Option ℚ) : ℚ :=
  match strength with
  | some s => max 0 (min 1 s)
  | none => 1/2

/-- The `case 'add_relationship'` branch of `executeEntityTool`
(AgentChat.tsx lines 748-777): fails naming the missing endpoint; with
both endpoints present, updates the strength of an existing edge with the
same target and label in place, or pushes a new edge. The in-place update
branch of the source does not touch `lastUpdated`. -/
def jsAddRelationship (args : AddRelationshipArgs) (now : Nat) (mem : EntityMemory) :
    EntityMemory × String :=
  match findWithIndex (fun n => n.id == args.sourceId) mem.nodes with
  | none => (mem, "Source entity not found: " ++ args.sourceId)
  | some (si, src) =>
    match findWithIndex (fun n => n.id == args.targetId) mem.nodes with
    | none => (mem, "Target entity not found: " ++ args.targetId)
    | some _ =>
      let strength := jsStrength args.strength
      match findWithIndex
          (fun r => r.targetId == args.targetId && r.relationship == args.relationship)
          src.relationships with
      | some (ri, rel) =>
        let src2 : EntityNode :=
          { src with relationships := src.relationships.set ri { rel with strength := strength } }
        ({ mem with nodes := mem.nodes.set si src2 },
          "Updated relationship: " ++ args.sourceId ++ " --[" ++ args.relationship
            ++ "]--> " ++ args.targetId)
      | none =>
        let src2 : EntityNode :=
          { src with relationships :=
              src.relationships ++ [⟨args.targetId, args.relationship, strength⟩] }
        ({ nodes := mem.nodes.set si src2, lastUpdated := now },
          "Added relationship: " ++ args.sourceId ++ " --[" ++ args.relationship
            ++ "]--> " ++ args.targetId)

/-- Folding a sequence of `create_entity` tool calls over the graph,
keeping only the state (the result strings go back to the LLM). -/
def createSeq (argsList : List CreateEntityArgs) (now : Nat) (mem : EntityMemory) :
    EntityMemory :=
  argsList.foldl (fun m a => (jsCreateEntity a now m).1) mem

/-- Whether the graph contains a node with the given id
(`findIndex(...) >= 0` in the source). -/
def containsId (nodes : List EntityNode) (x : String) : Bool :=
  nodes.any (fun n => n.id == x)

/-- No relationship dangles: every relationship's target id is the id of
some node of the graph. -/
def closedGraphB (nodes : List EntityNode) : Bool :=
  nodes.all (fun n =>
    n.relationships.all (fun r => nodes.any (fun m => m.id == r.targetId)))

/-- The bulk merge of the summarizer path (`updateMemory`, AgentChat.tsx
lines 898-921): proposed nodes with unseen ids are appended wholesale;
proposed nodes with known ids fully replace the stored node. -/
def bulkMergeNodes (nodes proposed : List EntityNode) : List EntityNode :=
  let existingIds := nodes.map (fun n => n.id)
  let newNodes := proposed.filter (fun n => !(existingIds.contains n.id))
  let updatedNodes := proposed.filter (fun n => existingIds.contains n.id)
  let replaced := updatedNodes.foldl (fun acc u =>
    match findWithIndex (fun n => n.id == u.id) acc with
    | some (i, _) => acc.set i u
    | none => acc) nodes
  replaced ++ newNodes

/-- `Thread` metadata of the source. -/
structure Thread where
  id : String
  name : String
  createdAt : Nat
  lastMessageAt : Nat
  messageCount : Nat
deriving Repr, DecidableEq

/-- `ChatMessage` of the source. -/
structure ChatMessage where
  role : String
  content : String
  timestamp : Nat
deriving Repr, DecidableEq

/-- `ConversationSummary` of the source. -/
structure ConversationSummary where
  summary : String
  lastUpdated : Nat
  messageCount : Nat
  threadId : String
deriving Repr, DecidableEq

/-- A document held by the storage port; each key of the source stores one
of these shapes. -/
inductive Doc where
  | threadsDoc (ts : List Thread)
  | historyDoc (ms : List ChatMessage)
  | summaryDoc (s : ConversationSummary)
  | entityDoc (m : EntityMemory)
deriving Repr, DecidableEq

/-- The document store: an association list with unique keys. -/
abbrev Storage := List (String × Doc)

/-- `storage.read(k)`. -/
def storageRead (st : Storage) (k : String) : Option Doc :=
  ((st.find? (fun kv => kv.fst == k))).map (fun kv => kv.snd)

/-- `storage.write(k, v)`: whole-document overwrite. -/
def storageWrite (st : Storage) (k : String) (v : Doc) : Storage :=
  (k, v) :: st.filter (fun kv => !(kv.fst == k))

/-- `storage.delete(k)`. -/
def storageDelete (st : Storage) (k : String) : Storage :=
  st.filter (fun kv => !(kv.fst == k))

/-- Key of a thread's persisted message log. -/
def histKey (id : String) : String := "agent-chat/threads/" ++ id ++ "/history"

/-- Key of a thread's persisted summary. -/
def sumKey (id : String) : String := "agent-chat/threads/" ++ id ++ "/summary"

/-- Key of the thread index. -/
def threadsKey : String := "agent-chat/threads"

/-- The in-memory state of `AgentChatApp` relevant to thread management,
together with the attached document store. -/
structure AppState where
  threads : List Thread
  currentThreadId : Option String
  messages : List ChatMessage
  conversationSummary : Option ConversationSummary
  storage : Storage
deriving Repr, DecidableEq

/-- `saveThread(threadId)` (AgentChat.tsx lines 557-573): writes the
in-memory log when non-empty and the summary when non-null, then updates
the thread's metadata in the index when the thread is listed. -/
def saveThread (threadId : String) (now : Nat) (st : AppState) : AppState :=
  let st1 :=
    if st.messages.length > 0 then
      { st with storage := storageWrite st.storage (histKey threadId) (Doc.historyDoc st.messages) }
    else st
  let st2 :=
    match st1.conversationSummary with
    | some s =>
      { st1 with storage := storageWrite st1.storage (sumKey threadId) (Doc.summaryDoc s) }
    | none => st1
  match findWithIndex (fun t => t.id == threadId) st2.threads with
  | some (i, t) =>
    let threads2 := st2.threads.set i
      { t with messageCount := st2.messages.length, lastMessageAt := now }
    { st2 with
        threads := threads2
        storage := storageWrite st2.storage threadsKey (Doc.threadsDoc threads2) }
  | none => st2

/-- `loadThread(threadId)` (AgentChat.tsx lines 535-555): reads the log
and summary from storage, defaulting to an empty log and a null summary. -/
def loadThread (threadId : String) (st : AppState) : AppState :=
  let msgs :=
    match storageRead st.storage (histKey threadId) with
    | some (Doc.historyDoc h) => h
    | _ => []
  let summ :=
    match storageRead st.storage (sumKey threadId) with
    | some (Doc.summaryDoc s) => some s
    | _ => none
  { st with messages := msgs, conversationSummary := summ }

/-- `switchThread(threadId)` (AgentChat.tsx lines 493-501): saves the
current thread when there is one, then makes `threadId` current and loads
it. -/
def switchThread (threadId : String) (now : Nat) (st : AppState) : AppState :=
  let st1 :=
    match st.currentThreadId with
    | some c => saveThread c now st
    | none => st
  loadThread threadId { st1 with currentThreadId := some threadId }

/-- `createThread(name)` (AgentChat.tsx lines 479-491). The source draws
the fresh id from `Date.now()` and `Math.random()`; it is passed in here. -/
def createThread (freshId : String) (name : String) (now : Nat) (st : AppState) : AppState :=
  let t : Thread :=
    { id := freshId, name := name, createdAt := now, lastMessageAt := now, messageCount := 0 }
  let threads2 := st.threads ++ [t]
  { st with
      threads := threads2
      storage := storageWrite st.storage threadsKey (Doc.threadsDoc threads2) }

/-- `deleteThread(threadId)` (AgentChat.tsx lines 502-520): deletes the
thread's persisted documents, removes it from the index, and when it was
current switches to the first remaining thread or creates and switches to
a fresh default thread. -/
def deleteThread (threadId : String) (now : Nat) (freshId : String) (st : AppState) : AppState :=
  let st1 :=
    { st with storage := storageDelete (storageDelete st.storage (histKey threadId)) (sumKey threadId) }
  let threads2 := st1.threads.filter (fun t => !(t.id == threadId))
  let st2 :=
    { st1 with
        threads := threads2
        storage := storageWrite st1.storage threadsKey (Doc.threadsDoc threads2) }
  if st2.currentThreadId == some threadId then
    match st2.threads with
    | t :: _ => switchThread t.id now st2
    | [] =>
      let st3 := createThread freshId "E10D Agent" now st2
      switchThread freshId now st3
  else st2

/-- `getThreads()` (AgentChat.tsx lines 522-524): returns a copy of the
thread array. -/
def getThreads (st : AppState) : List Thread :=
  st.threads

/-- The memory configuration of the source with its defaults. -/
structure MemoryConfig where
  recentMessagesCount : Nat
  summaryUpdateFrequency : Nat
deriving Repr, DecidableEq

/-- The initializer of `AgentChatApp.memoryConfig`. -/
def defaultMemoryConfig : MemoryConfig :=
  { recentMessagesCount := 10, summaryUpdateFrequency := 5 }

/-- `this.conversationSummary?.messageCount || 0` in `sendMessage`. -/
def summaryMessageCount (s : Option ConversationSummary) : Nat :=
  match s with
  | some c => c.messageCount
  | none => 0

/-- `messageCountSinceLastUpdate` in `sendMessage`: JavaScript number
subtraction, so an integer that may be negative. -/
def messagesSinceLastUpdate (msgs : List ChatMessage) (s : Option ConversationSummary) : Int :=
  (msgs.length : Int) - (summaryMessageCount s : Int)

/-- The summarization trigger of `sendMessage` (AgentChat.tsx lines
1028-1034): fire `updateMemory` when the count of messages since the last
summary reaches the configured frequency. -/
def shouldTriggerSummary (cfg : MemoryConfig) (msgs : List ChatMessage)
    (s : Option ConversationSummary) : Bool :=
  (cfg.summaryUpdateFrequency : Int) ≤ messagesSinceLastUpdate msgs s

/-- The memory-relevant skeleton of one `sendMessage` turn (AgentChat.tsx
lines 935-1043): append the user message, obtain `replyText` from the LLM
collaborator, append it as the assistant message, persist the thread, and
evaluate the summarization trigger (fired without awaiting). Returns
`none` when no thread is selected (the source throws). The returned
boolean records whether an `updateMemory` run was started. -/
def sendMessageTurn (userText replyText : String) (now : Nat) (st : AppState) :
    Option (AppState × Bool) :=
  match st.currentThreadId with
  | none => none
  | some tid =>
    let st1 := { st with messages := st.messages ++ [ChatMessage.mk "user" userText now] }
    let st2 := { st1 with messages := st1.messages ++ [ChatMessage.mk "assistant" replyText now] }
    let st3 := saveThread tid now st2
    some (st3, shouldTriggerSummary defaultMemoryConfig st3.messages st3.conversationSummary)

/-- Whether a thread list is ordered by most-recent activity, i.e. sorted
by `lastMessageAt` descending. -/
def sortedByLastMessageAtDesc : List Thread → Bool
  | [] => true
  | [_] => true
  | a :: b :: rest =>
    (decide (b.lastMessageAt ≤ a.lastMessageAt)) && sortedByLastMessageAtDesc (b :: rest)

/-- A chat message reused by several concrete witnesses. -/
def wMsg : ChatMessage := ⟨"user", "hello", 0⟩

/-- Summary of the single-thread C3 state. -/
def wSum : ConversationSummary := ⟨"sum", 0, 1, "t1"⟩

/-- The single thread of the C3 state. -/
def wThread1 : Thread := ⟨"t1", "E10D Agent", 0, 0, 1⟩

/-- C3 state: one thread `t1`, current, with one in-memory message and a
summary, all persisted. -/
def wDelState : AppState :=
  ⟨[wThread1], some "t1", [wMsg], some wSum,
   [(threadsKey, Doc.threadsDoc [wThread1]),
    (histKey "t1", Doc.historyDoc [wMsg]),
    (sumKey "t1", Doc.summaryDoc wSum)]⟩

/-- Thread `T` of the C6 counterexample. -/
def wThreadT : Thread := ⟨"T", "a", 0, 0, 0⟩

/-- Thread `U` of the C6 counterexample. -/
def wThreadU : Thread := ⟨"U", "b", 0, 0, 0⟩

/-- C6 counterexample state: current thread `T` has an empty in-memory log
and no summary, but storage still holds an older non-empty history for `T`
(as left behind by `clearCurrentThread`, which never deletes stored
history). -/
def wStaleState : AppState :=
  ⟨[wThreadT, wThreadU], some "T", [], none, [(histKey "T", Doc.historyDoc [wMsg])]⟩

/-- C6 witness state: current thread `T` with a non-empty log and a
summary. -/
def wRoundState : AppState :=
  ⟨[wThreadT, wThreadU], some "T", [wMsg], some ⟨"s", 0, 1, "T"⟩, []⟩

/-- C9 state: two threads whose `lastMessageAt` order is ascending, so the
stored order is not sorted by recency. -/
def wOrderState : AppState :=
  ⟨[⟨"a", "a", 0, 1, 0⟩, ⟨"b", "b", 0, 2, 0⟩], none, [], none, []⟩

/-- C8 witness state: two messages and no summary, so the turn brings the
delta to four. -/
def wTurnState4 : AppState :=
  ⟨[wThreadT], some "T", [wMsg, wMsg], none, []⟩

/-- C8 witness state: three messages and no summary, so the turn brings the
delta to exactly five. -/
def wTurnState5 : AppState :=
  ⟨[wThreadT], some "T", [wMsg, wMsg, wMsg], none, []⟩

/-- Stored node of the C7 witness, carrying a property the proposed node
omits. -/
def wStored : EntityNode :=
  ⟨"person-alice", "person", some "Alice", some "friend", [("mood", "happy")], []⟩

/-- Proposed restatement of the stored node, without its property. -/
def wProposedAlice : EntityNode :=
  ⟨"person-alice", "person", some "Alice", some "friend", [], []⟩

/-- Proposed node with an unseen id. -/
def wProposedNew : EntityNode := ⟨"new1", "place", some "N", none, [], []⟩

/-- Concrete single-node graph for the C1 witness. -/
def wOldA : EntityNode := ⟨"x", "person", some "A", none, [], []⟩

/-- Concrete single-node graph for the C1 witness. -/
def wMemA : EntityMemory := ⟨[wOldA], 7⟩

/-- First concrete `create_entity` call of the C1 witness. -/
def wArgsA : CreateEntityArgs := ⟨"x", some "person", some "A", none, none⟩

/-- Second concrete `create_entity` call of the C1 witness. -/
def wArgsB : CreateEntityArgs := ⟨"x", none, some "B", none, some [("p", "1")]⟩

/-- Graph of the C5 witness: the single entity `person-alice` as created by
the spec's scenario. -/
def wAlice : EntityNode := ⟨"person-alice", "person", some "Alice", some "friend", [], []⟩

/-- Second entity of the C4 witness graph. -/
def wNodeB : EntityNode := ⟨"b", "other", some "B", none, [], []⟩

/-- Two-node graph of the C4 witness. -/
def wMemAB : EntityMemory := ⟨[wAlice, wNodeB], 1⟩

/-- Graph of the C2 witness: `person-alice` carries a `knows` edge to `b`,
and `b` carries a `knows2` edge back to `person-alice`. -/
def wDelMem : EntityMemory :=
  ⟨[{ wAlice with relationships := [⟨"b", "knows", 1/2⟩] },
    { wNodeB with relationships := [⟨"person-alice", "knows2", 1/2⟩] }], 4⟩

/-! Helper lemmas about `findWithIndex` and list surgery. -/

theorem findWithIndex_eq_some {α : Type} {p : α → Bool} :
    ∀ {l : List α} {i : Nat} {x : α}, findWithIndex p l = some (i, x) →
      l[i]? = some x ∧ p x = true := by
  intro l
  induction l with
  | nil => intro i x h; simp [findWithIndex] at h
  | cons a xs ih =>
    intro i x h
    unfold findWithIndex at h
    by_cases hpa : p a = true
    · rw [if_pos hpa] at h
      injection h with h1
      injection h1 with h2 h3
      subst h2; subst h3
      simp [hpa]
    · rw [if_neg hpa] at h
      cases hrec : findWithIndex p xs with
      | none => rw [hrec] at h; simp at h
      | some jy =>
        obtain ⟨j, y⟩ := jy
        rw [hrec] at h
        simp only [Option.map_some'] at h
        injection h with h1
        injection h1 with h2 h3
        subst h2; subst h3
        have := ih hrec
        simpa using this

theorem findWithIndex_eq_none {α : Type} {p : α → Bool} :
    ∀ {l : List α}, findWithIndex p l = none ↔ ∀ x ∈ l, p x = false := by
  intro l
  induction l with
  | nil => simp [findWithIndex]
  | cons a xs ih =>
    unfold findWithIndex
    by_cases hpa : p a = true
    · rw [if_pos hpa]
      constructor
      · intro h; exact absurd h (by simp)
      · intro h
        exact absurd (h a (List.mem_cons_self a xs)) (by simp [hpa])
    · rw [if_neg hpa]
      rw [Option.map_eq_none', ih]
      constructor
      · intro h x hx
        rcases List.mem_cons.mp hx with hx | hx
        · subst hx; exact Bool.not_eq_true _ ▸ hpa
        · exact h x hx
      · intro h x hx
        exact h x (List.mem_cons_of_mem a hx)

theorem findWithIndex_set {α : Type} {p : α → Bool} :
    ∀ {l : List α} {i : Nat} {x : α} (y : α), findWithIndex p l = some (i, x) →
      p y = true → findWithIndex p (l.set i y) = some (i, y) := by
  intro l
  induction l with
  | nil => intro i x y h; simp [findWithIndex] at h
  | cons a xs ih =>
    intro i x y h hpy
    unfold findWithIndex at h
    by_cases hpa : p a = true
    · rw [if_pos hpa] at h
      injection h with h1
      injection h1 with h2 h3
      subst h2
      simp [List.set, findWithIndex, hpy]
    · rw [if_neg hpa] at h
      cases hrec : findWithIndex p xs with
      | none => rw [hrec] at h; simp at h
      | some jz =>
        obtain ⟨j, z⟩ := jz
        rw [hrec] at h
        simp only [Option.map_some'] at h
        injection h with h1
        injection h1 with h2 h3
        subst h2; subst h3
        have := ih y hrec hpy
        simp [List.set, findWithIndex, hpa, this]

theorem countP_set_eq {α : Type} {p : α → Bool} {l : List α} {i : Nat} {x y : α}
    (hget : l[i]? = some x) (hpq : p x = p y) : (l.set i y).countP p = l.countP p := by
  induction l generalizing i with
  | nil => simp at hget
  | cons a xs ih =>
    cases i with
    | zero =>
      simp at hget
      subst hget
      simp [List.countP_cons, hpq]
    | succ i =>
      simp at hget
      simp [List.countP_cons, ih hget]

theorem countP_eraseIdx_succ {α : Type} {p : α → Bool} :
    ∀ {l : List α} {i : Nat} {x : α}, l[i]? = some x → p x = true →
      (l.eraseIdx i).countP p + 1 = l.countP p := by
  intro l
  induction l with
  | nil => intro i x h; simp at h
  | cons a xs ih =>
    intro i x hget hpx
    cases i with
    | zero =>
      simp at hget
      subst hget
      simp [List.countP_cons, hpx]
    | succ i =>
      simp at hget
      simp [List.countP_cons, ← ih hget hpx]
      omega

theorem mem_eraseIdx_of_mem {α : Type} {l : List α} {i : Nat} {x m : α}
    (hget : l[i]? = some x) (hm : m ∈ l) (hne : m ≠ x) : m ∈ l.eraseIdx i := by
  induction l generalizing i with
  | nil => simp at hget
  | cons a xs ih =>
    cases i with
    | zero =>
      simp at hget
      subst hget
      simp at hm
      rcases hm with hm | hm
      · exact absurd hm hne
      · simpa using hm
    | succ i =>
      simp at hget
      simp at hm
      rcases hm with hm | hm
      · subst hm; simp [List.eraseIdx]
      · simp [List.eraseIdx]
        exact Or.inr (ih hget hm)

theorem eraseIdx_map {α β : Type} (f : α → β) :
    ∀ (l : List α) (i : Nat), (l.map f).eraseIdx i = (l.eraseIdx i).map f := by
  intro l
  induction l with
  | nil => intro i; simp
  | cons a xs ih =>
    intro i
    cases i with
    | zero => simp [List.eraseIdx]
    | succ i => simp [List.eraseIdx, ih]

theorem any_set_eq {α : Type} {p : α → Bool} {l : List α} {i : Nat} {x y : α}
    (hget : l[i]? = some x) (h : p x = p y) : (l.set i y).any p = l.any p := by
  induction l generalizing i with
  | nil => simp at hget
  | cons a xs ih =>
    cases i with
    | zero =>
      simp at hget
      subst hget
      simp [h]
    | succ i =>
      simp at hget
      simp [ih hget]

theorem set_getElem?_same {α : Type} {l : List α} {i : Nat} {x : α}
    (h : l[i]? = some x) : l.set i x = l := by
  induction l generalizing i with
  | nil => simp at h
  | cons a xs ih =>
    cases i with
    | zero => simp at h; simp [h]
    | succ i => simp at h; simp [ih h]

theorem propLookup_cons (kv : String × String) (rest : Props) (k : String) :
    propLookup (kv :: rest) k
      = if kv.fst == k then some kv.snd else propLookup rest k := by
  by_cases hk : (kv.fst == k) = true <;> simp [propLookup, List.find?_cons, hk]

theorem propLookup_append (xs ys : Props) (k : String) :
    propLookup (xs ++ ys) k = optOrElse (propLookup xs k) (propLookup ys k) := by
  induction xs with
  | nil => simp [propLookup, optOrElse]
  | cons kv rest ih =>
    by_cases hk : (kv.fst == k) = true <;>
      simp [List.cons_append, propLookup_cons, hk, ih, optOrElse]

theorem propLookup_overrideMap (b : Props) (k : String) :
    ∀ (a : Props),
      propLookup (a.map (fun kv =>
        match propLookup b kv.fst with
        | some v => (kv.fst, v)
        | none => kv)) k
      = match propLookup a k with
        | some v =>
          match propLookup b k with
          | some w => some w
          | none => some v
        | none => none := by
  intro a
  induction a with
  | nil => simp [propLookup]
  | cons kv rest ih =>
    by_cases hk : (kv.fst == k) = true
    · have hkk : kv.fst = k := by simpa using hk
      subst hkk
      cases hb : propLookup b kv.fst <;>
        simp [List.map_cons, propLookup_cons, hb, hk]
    · cases hbkv : propLookup b kv.fst <;>
        simp [List.map_cons, propLookup_cons, hbkv, hk, ih]

theorem propLookup_filterNew (a : Props) (k : String) (ha : propLookup a k = none) :
    ∀ (b : Props),
      propLookup (b.filter (fun kv => (propLookup a kv.fst).isNone)) k
        = propLookup b k := by
  intro b
  induction b with
  | nil => simp
  | cons kv rest ih =>
    by_cases hk : (kv.fst == k) = true
    · have hkk : kv.fst = k := by simpa using hk
      subst hkk
      simp [List.filter_cons, ha, propLookup_cons, hk]
    · cases hkeep : (propLookup a kv.fst).isNone <;>
        simp [List.filter_cons, hkeep, propLookup_cons, hk, ih]

theorem propLookup_spreadMerge (a b : Props) (k : String) :
    propLookup (spreadMerge a b) k = optOrElse (propLookup b k) (propLookup a k) := by
  unfold spreadMerge
  rw [propLookup_append, propLookup_overrideMap]
  cases ha : propLookup a k with
  | some v =>
    cases hb : propLookup b k <;> simp [optOrElse]
  | none =>
    rw [propLookup_filterNew a k ha b]
    cases hb : propLookup b k <;> simp [optOrElse]

/-! C1 helper lemmas: one `create_entity` step keeps the number of nodes
with the given id equal to one. -/

theorem createStep_countP (a : CreateEntityArgs) (now : Nat) (mem : EntityMemory)
    (hinv : mem.nodes.countP (fun n => n.id == a.id) ≤ 1) :
    ((jsCreateEntity a now mem).1.nodes.countP (fun n => n.id == a.id)) = 1 := by
  cases hfind : findWithIndex (fun n => n.id == a.id) mem.nodes with
  | some ix =>
    obtain ⟨i, old⟩ := ix
    obtain ⟨hget, hp⟩ := findWithIndex_eq_some hfind
    have hmem : old ∈ mem.nodes := List.getElem?_mem hget
    have hpos : 0 < mem.nodes.countP (fun n => n.id == a.id) :=
      List.countP_pos_iff.mpr ⟨old, hmem, hp⟩
    simp only [jsCreateEntity, hfind]
    rw [countP_set_eq hget (by rfl)]
    omega
  | none =>
    have hzero : mem.nodes.countP (fun n => n.id == a.id) = 0 := by
      rw [List.countP_eq_zero]
      intro n hn
      simp [findWithIndex_eq_none.mp hfind n hn]
    simp only [jsCreateEntity, hfind]
    simp [List.countP_append, hzero, List.countP_cons]

theorem createSeq_countP_one (now : Nat) (X : String) :
    ∀ (argsList : List CreateEntityArgs) (mem : EntityMemory),
      (∀ a ∈ argsList, a.id = X) →
      mem.nodes.countP (fun n => n.id == X) = 1 →
      (createSeq argsList now mem).nodes.countP (fun n => n.id == X) = 1 := by
  intro argsList
  induction argsList with
  | nil => intro mem _ h1; simpa [createSeq] using h1
  | cons a rest ih =>
    intro mem hall h1
    have hid : a.id = X := hall a (List.mem_cons_self a rest)
    have hstep : ((jsCreateEntity a now mem).1.nodes.countP (fun n => n.id == X)) = 1 := by
      rw [← hid] at h1 ⊢
      exact createStep_countP a now mem (le_of_eq h1)
    have : createSeq (a :: rest) now mem = createSeq rest now (jsCreateEntity a now mem).1 := by
      simp [createSeq]
    rw [this]
    exact ih (jsCreateEntity a now mem).1 (fun b hb => hall b (List.mem_cons_of_mem a hb)) hstep

/-- C1: in a graph satisfying the node-id uniqueness invariant (at most one
node with id X), executing any non-empty sequence of `create_entity` tool
calls that share the id X leaves exactly one node with id X; a call whose id
already exists merges fields into the existing node — name and description
overwritten only when supplied truthy, properties shallow-merged in
JavaScript spread fashion, the relationship list preserved — and a call with
a fresh id appends a node with an empty relationship list. -/
theorem create_entity_idempotent_upsert :
    (∀ (mem : EntityMemory) (argsList : List CreateEntityArgs) (X : String) (now : Nat),
      (∀ a ∈ argsList, a.id = X) → argsList ≠ [] →
      mem.nodes.countP (fun n => n.id == X) ≤ 1 →
      (createSeq argsList now mem).nodes.countP (fun n => n.id == X) = 1)
    ∧ (∀ (mem : EntityMemory) (args : CreateEntityArgs) (now : Nat) (i : Nat) (old : EntityNode),
      findWithIndex (fun n => n.id == args.id) mem.nodes = some (i, old) →
      ∃ merged : EntityNode,
        jsCreateEntity args now mem
          = ({ nodes := mem.nodes.set i merged, lastUpdated := now },
             "Updated existing entity: " ++ args.id)
        ∧ merged.id = old.id
        ∧ merged.type = old.type
        ∧ merged.relationships = old.relationships
        ∧ (strTruthy args.name = true → merged.name = args.name)
        ∧ (strTruthy args.name = false → merged.name = old.name)
        ∧ (strTruthy args.description = true → merged.description = args.description)
        ∧ (strTruthy args.description = false → merged.description = old.description)
        ∧ (∀ k, propLookup merged.properties k
            = optOrElse (propLookup (args.properties.getD []) k)
                (propLookup old.properties k)))
    ∧ (∀ (mem : EntityMemory) (args : CreateEntityArgs) (now : Nat),
      findWithIndex (fun n => n.id == args.id) mem.nodes = none →
      ∃ newNode : EntityNode,
        (jsCreateEntity args now mem).1.nodes = mem.nodes ++ [newNode]
        ∧ newNode.id = args.id
        ∧ newNode.relationships = []) := by
  refine ⟨?_, ?_, ?_⟩
  · intro mem argsList X now hall hne hinv
    match argsList, hne with
    | a :: rest, _ =>
      have hid : a.id = X := hall a (List.mem_cons_self a rest)
      have hstep : ((jsCreateEntity a now mem).1.nodes.countP (fun n => n.id == X)) = 1 := by
        rw [← hid] at hinv ⊢
        exact createStep_countP a now mem hinv
      have hseq : createSeq (a :: rest) now mem
          = createSeq rest now (jsCreateEntity a now mem).1 := by
        simp [createSeq]
      rw [hseq]
      exact createSeq_countP_one now X rest (jsCreateEntity a now mem).1
        (fun b hb => hall b (List.mem_cons_of_mem a hb)) hstep
  · intro mem args now i old hfind
    refine ⟨{ old with
        name := if strTruthy args.name then args.name else old.name
        description := if strTruthy args.description then args.description else old.description
        properties := spreadMerge old.properties (args.properties.getD []) },
      ?_, rfl, rfl, rfl, ?_, ?_, ?_, ?_, ?_⟩
    · simp [jsCreateEntity, hfind]
    · intro h; simp [h]
    · intro h; simp [h]
    · intro h; simp [h]
    · intro h; simp [h]
    · intro k; exact propLookup_spreadMerge old.properties (args.properties.getD []) k
  · intro mem args now hfind
    refine ⟨{ id := args.id, type := jsOrString args.type "other", name := args.name,
              description := args.description, properties := args.properties.getD [],
              relationships := [] }, ?_, rfl, rfl⟩
    simp [jsCreateEntity, hfind]

/-- Witness for C1: a two-call sequence with id `"x"` on the empty graph
leaves exactly one node with id `"x"`; the merge and insert branches are
exercised at concrete inputs. -/
theorem create_entity_idempotent_upsert_witness :
    ((createSeq [wArgsA, wArgsB] 7 ⟨[], 0⟩).nodes.countP (fun n => n.id == "x") = 1)
    ∧ (∃ merged : EntityNode,
        jsCreateEntity wArgsB 8 wMemA
          = ({ nodes := wMemA.nodes.set 0 merged, lastUpdated := 8 },
             "Updated existing entity: " ++ wArgsB.id)
        ∧ merged.id = wOldA.id
        ∧ merged.type = wOldA.type
        ∧ merged.relationships = wOldA.relationships
        ∧ (strTruthy wArgsB.name = true → merged.name = wArgsB.name)
        ∧ (strTruthy wArgsB.name = false → merged.name = wOldA.name)
        ∧ (strTruthy wArgsB.description = true → merged.description = wArgsB.description)
        ∧ (strTruthy wArgsB.description = false → merged.description = wOldA.description)
        ∧ (∀ k, propLookup merged.properties k
            = optOrElse (propLookup (wArgsB.properties.getD []) k)
                (propLookup wOldA.properties k)))
    ∧ (∃ newNode : EntityNode,
        (jsCreateEntity wArgsA 7 ⟨[], 0⟩).1.nodes
          = (⟨[], 0⟩ : EntityMemory).nodes ++ [newNode]
        ∧ newNode.id = wArgsA.id
        ∧ newNode.relationships = []) :=
  ⟨create_entity_idempotent_upsert.1 ⟨[], 0⟩ [wArgsA, wArgsB] "x" 7
      (by decide) (by decide) (by decide),
   create_entity_idempotent_upsert.2.1 wMemA wArgsB 8 0 wOldA (by decide),
   create_entity_idempotent_upsert.2.2 ⟨[], 0⟩ wArgsA 7 (by decide)⟩

theorem containsId_eq_false {nodes : List EntityNode} {x : String}
    (h : containsId nodes x = false) : ∀ n ∈ nodes, (n.id == x) = false := by
  intro n hn
  cases hb : (n.id == x) with
  | false => rfl
  | true =>
    exfalso
    have ht : containsId nodes x = true := by
      simp only [containsId, List.any_eq_true]
      exact ⟨n, hn, hb⟩
    simp [ht] at h

theorem containsId_eq_true {nodes : List EntityNode} {x : String}
    (h : containsId nodes x = true) : ∃ n ∈ nodes, (n.id == x) = true := by
  simpa only [containsId, List.any_eq_true] using h

theorem findWithIndex_id_none_of_not_contains {nodes : List EntityNode} {x : String}
    (h : containsId nodes x = false) :
    findWithIndex (fun n => n.id == x) nodes = none := by
  rw [findWithIndex_eq_none]
  exact containsId_eq_false h

theorem findWithIndex_id_ne_none_of_contains {nodes : List EntityNode} {x : String}
    (h : containsId nodes x = true) :
    findWithIndex (fun n => n.id == x) nodes ≠ none := by
  intro hnone
  obtain ⟨n, hn, hb⟩ := containsId_eq_true h
  have := findWithIndex_eq_none.mp hnone n hn
  simp [this] at hb

/-- C10: a `create_entity` call whose id is not yet in the graph appends a
single new node; a missing or falsy `type` argument yields type `"other"`,
omitted `properties` yield an empty properties map, and the new node's
relationship list is always empty. -/
theorem create_entity_insert_defaults
    (mem : EntityMemory) (args : CreateEntityArgs) (now : Nat)
    (habsent : containsId mem.nodes args.id = false) :
    ∃ newNode : EntityNode,
      (jsCreateEntity args now mem).1.nodes = mem.nodes ++ [newNode]
      ∧ newNode.id = args.id
      ∧ (strTruthy args.type = false → newNode.type = "other")
      ∧ (args.properties = none → newNode.properties = [])
      ∧ newNode.relationships = [] := by
  have hfind : findWithIndex (fun n => n.id == args.id) mem.nodes = none :=
    findWithIndex_id_none_of_not_contains habsent
  refine ⟨{ id := args.id, type := jsOrString args.type "other", name := args.name,
            description := args.description, properties := args.properties.getD [],
            relationships := [] }, ?_, rfl, ?_, ?_, rfl⟩
  · simp [jsCreateEntity, hfind]
  · intro hfalsy
    cases hty : args.type with
    | none => simp [jsOrString]
    | some s =>
      rw [hty] at hfalsy
      simp [strTruthy] at hfalsy
      simp [jsOrString, hfalsy]
  · intro hnone
    simp [hnone]

/-- Witness for C10: creating `"e1"` with a `type` of empty string and no
properties in the empty graph. -/
theorem create_entity_insert_defaults_witness :
    ∃ newNode : EntityNode,
      (jsCreateEntity ⟨"e1", some "", some "E", none, none⟩ 3 ⟨[], 0⟩).1.nodes
        = (⟨[], 0⟩ : EntityMemory).nodes ++ [newNode]
      ∧ newNode.id = (⟨"e1", some "", some "E", none, none⟩ : CreateEntityArgs).id
      ∧ (strTruthy (⟨"e1", some "", some "E", none, none⟩ : CreateEntityArgs).type = false →
          newNode.type = "other")
      ∧ ((⟨"e1", some "", some "E", none, none⟩ : CreateEntityArgs).properties = none →
          newNode.properties = [])
      ∧ newNode.relationships = [] :=
  create_entity_insert_defaults ⟨[], 0⟩ ⟨"e1", some "", some "E", none, none⟩ 3 (by decide)

/-- C5: an `add_relationship` call whose source entity is missing fails
with a not-found result naming the source, and one whose source exists but
whose target is missing fails naming the target; in both cases the whole
graph is returned unchanged. -/
theorem add_relationship_not_found
    (mem : EntityMemory) (args : AddRelationshipArgs) (now : Nat) :
    (containsId mem.nodes args.sourceId = false →
      jsAddRelationship args now mem
        = (mem, "Source entity not found: " ++ args.sourceId))
    ∧ (containsId mem.nodes args.sourceId = true →
       containsId mem.nodes args.targetId = false →
      jsAddRelationship args now mem
        = (mem, "Target entity not found: " ++ args.targetId)) := by
  constructor
  · intro habsent
    have hfind : findWithIndex (fun n => n.id == args.sourceId) mem.nodes = none :=
      findWithIndex_id_none_of_not_contains habsent
    simp [jsAddRelationship, hfind]
  · intro hsrc htgt
    have hfindT : findWithIndex (fun n => n.id == args.targetId) mem.nodes = none :=
      findWithIndex_id_none_of_not_contains htgt
    cases hfindS : findWithIndex (fun n => n.id == args.sourceId) mem.nodes with
    | none => exact absurd hfindS (findWithIndex_id_ne_none_of_contains hsrc)
    | some ix =>
      obtain ⟨si, src⟩ := ix
      simp [jsAddRelationship, hfindS, hfindT]

/-- Witness for C5: with only `person-alice` in the graph,
`add_relationship("person-alice", "place-sf", "lives_in")` fails naming
`place-sf` and leaves the graph — in particular `person-alice` — unchanged. -/
theorem add_relationship_not_found_witness :
    jsAddRelationship ⟨"person-alice", "place-sf", "lives_in", none⟩ 2 ⟨[wAlice], 1⟩
      = (⟨[wAlice], 1⟩,
         "Target entity not found: "
           ++ (⟨"person-alice", "place-sf", "lives_in", none⟩ : AddRelationshipArgs).targetId) :=
  (add_relationship_not_found ⟨[wAlice], 1⟩
      ⟨"person-alice", "place-sf", "lives_in", none⟩ 2).2 (by decide) (by decide)

theorem two_le_countP {α : Type} {p : α → Bool} {l : List α} {i j : Nat} {x y : α}
    (hi : l[i]? = some x) (hj : l[j]? = some y) (hij : i ≠ j)
    (hpx : p x = true) (hpy : p y = true) : 2 ≤ l.countP p := by
  have h1 := countP_eraseIdx_succ hi hpx
  have hy : y ∈ l.eraseIdx i := by
    rcases Nat.lt_or_ge j i with hlt | hge
    · have hj2 : (l.eraseIdx i)[j]? = some y := by
        rw [List.getElem?_eraseIdx]
        simp [hlt, hj]
      exact List.getElem?_mem hj2
    · have hgt : i < j := lt_of_le_of_ne hge hij
      have hj2 : (l.eraseIdx i)[j - 1]? = some y := by
        rw [List.getElem?_eraseIdx]
        have hnlt : ¬(j - 1 < i) := by omega
        rw [if_neg hnlt]
        rw [show j - 1 + 1 = j by omega]
        exact hj
      exact List.getElem?_mem hj2
  have h2 : 0 < (l.eraseIdx i).countP p := List.countP_pos_iff.mpr ⟨y, hy, hpy⟩
  omega

/-- One `add_relationship` step with both endpoints present: the source
node (unique relationship per target-label pair assumed, per the data
model) ends up carrying exactly one edge with the requested target and
label, whose strength is the clamped requested strength. -/
theorem addRel_step (mem : EntityMemory) (args : AddRelationshipArgs) (now : Nat)
    (si : Nat) (src : EntityNode)
    (hsrc : findWithIndex (fun n => n.id == args.sourceId) mem.nodes = some (si, src))
    (htgt : containsId mem.nodes args.targetId = true)
    (hkey : src.relationships.countP
        (fun r => r.targetId == args.targetId && r.relationship == args.relationship) ≤ 1) :
    ∃ src2 : EntityNode,
      (jsAddRelationship args now mem).1.nodes = mem.nodes.set si src2
      ∧ src2.id = src.id
      ∧ src2.relationships.countP
          (fun r => r.targetId == args.targetId && r.relationship == args.relationship) = 1
      ∧ (∀ r ∈ src2.relationships,
          (r.targetId == args.targetId && r.relationship == args.relationship) = true →
          r.strength = jsStrength args.strength) := by
  cases hfT : findWithIndex (fun n => n.id == args.targetId) mem.nodes with
  | none => exact absurd hfT (findWithIndex_id_ne_none_of_contains htgt)
  | some tix =>
    cases hrel : findWithIndex
        (fun r => r.targetId == args.targetId && r.relationship == args.relationship)
        src.relationships with
    | some rix =>
      obtain ⟨ri, rel⟩ := rix
      obtain ⟨hget, hp⟩ := findWithIndex_eq_some hrel
      refine ⟨{ src with relationships :=
          src.relationships.set ri { rel with strength := jsStrength args.strength } },
        ?_, rfl, ?_, ?_⟩
      · simp [jsAddRelationship, hsrc, hfT, hrel]
      · dsimp only
        rw [countP_set_eq (y := { rel with strength := jsStrength args.strength }) hget rfl]
        have hmem : rel ∈ src.relationships := List.getElem?_mem hget
        have hpos : 0 < src.relationships.countP
            (fun r => r.targetId == args.targetId && r.relationship == args.relationship) :=
          List.countP_pos_iff.mpr ⟨rel, hmem, hp⟩
        omega
      · intro r hr hkeyr
        dsimp only at hr
        obtain ⟨jr, hjr⟩ := List.getElem?_of_mem hr
        rw [List.getElem?_set] at hjr
        by_cases hji : ri = jr
        · obtain ⟨hlt, _⟩ := List.getElem?_eq_some_iff.mp hget
          rw [if_pos hji, if_pos hlt] at hjr
          injection hjr with hjr
          rw [← hjr]
        · rw [if_neg hji] at hjr
          exfalso
          have h2 := two_le_countP
            (p := fun r => r.targetId == args.targetId && r.relationship == args.relationship)
            hget hjr hji hp hkeyr
          omega
    | none =>
      refine ⟨{ src with relationships := src.relationships
          ++ [⟨args.targetId, args.relationship, jsStrength args.strength⟩] },
        ?_, rfl, ?_, ?_⟩
      · simp [jsAddRelationship, hsrc, hfT, hrel]
      · have hzero : src.relationships.countP
            (fun r => r.targetId == args.targetId && r.relationship == args.relationship) = 0 := by
          rw [List.countP_eq_zero]
          intro r hrm
          simp [findWithIndex_eq_none.mp hrel r hrm]
        simp [List.countP_append, hzero]
      · intro r hr hkeyr
        rcases List.mem_append.mp hr with hcase | hcase
        · have := findWithIndex_eq_none.mp hrel r hcase
          rw [this] at hkeyr
          cases hkeyr
        · simp at hcase
          rw [hcase]

/-- C4: with source and target present and at most one matching edge on the
source (the per-node edge-key uniqueness invariant), `add_relationship`
leaves the source carrying exactly one edge with the requested target and
label, whose strength is the requested strength clamped into [0,1]
(5 stores 1, -2 stores 0) or 0.5 when omitted; a second call with the same
target and label updates that edge's strength in place, never duplicating. -/
theorem add_relationship_upsert_and_clamp :
    (∀ (mem : EntityMemory) (args : AddRelationshipArgs) (now : Nat)
        (si : Nat) (src : EntityNode),
      findWithIndex (fun n => n.id == args.sourceId) mem.nodes = some (si, src) →
      containsId mem.nodes args.targetId = true →
      src.relationships.countP
          (fun r => r.targetId == args.targetId && r.relationship == args.relationship) ≤ 1 →
      ∃ src2 : EntityNode,
        (jsAddRelationship args now mem).1.nodes = mem.nodes.set si src2
        ∧ src2.id = src.id
        ∧ src2.relationships.countP
            (fun r => r.targetId == args.targetId && r.relationship == args.relationship) = 1
        ∧ (∀ r ∈ src2.relationships,
            (r.targetId == args.targetId && r.relationship == args.relationship) = true →
            r.strength = jsStrength args.strength))
    ∧ jsStrength (some 5) = 1
    ∧ jsStrength (some (-2)) = 0
    ∧ jsStrength none = 1/2
    ∧ (∀ (mem : EntityMemory) (A B label : String) (s1 s2 : Option ℚ) (now1 now2 : Nat)
        (si : Nat) (src : EntityNode),
      findWithIndex (fun n => n.id == A) mem.nodes = some (si, src) →
      containsId mem.nodes B = true →
      src.relationships.countP (fun r => r.targetId == B && r.relationship == label) ≤ 1 →
      ∃ src3 : EntityNode,
        (jsAddRelationship ⟨A, B, label, s2⟩ now2
            (jsAddRelationship ⟨A, B, label, s1⟩ now1 mem).1).1.nodes
          = ((jsAddRelationship ⟨A, B, label, s1⟩ now1 mem).1).nodes.set si src3
        ∧ src3.relationships.countP (fun r => r.targetId == B && r.relationship == label) = 1
        ∧ (∀ r ∈ src3.relationships,
            (r.targetId == B && r.relationship == label) = true →
            r.strength = jsStrength s2)) := by
  refine ⟨addRel_step, by simp [jsStrength], by simp [jsStrength], rfl, ?_⟩
  intro mem A B label s1 s2 now1 now2 si src hsrc htgt hkey
  obtain ⟨src2, h1nodes, hid, hcount, _⟩ :=
    addRel_step mem ⟨A, B, label, s1⟩ now1 si src hsrc htgt hkey
  have hget : mem.nodes[si]? = some src := (findWithIndex_eq_some hsrc).1
  have hpsrc : (src.id == A) = true := (findWithIndex_eq_some hsrc).2
  have hpsrc2 : (src2.id == A) = true := by rw [hid]; exact hpsrc
  have hsrc2 : findWithIndex (fun n => n.id == A)
      ((jsAddRelationship ⟨A, B, label, s1⟩ now1 mem).1).nodes = some (si, src2) := by
    rw [h1nodes]
    exact findWithIndex_set src2 hsrc hpsrc2
  have htgt2 : containsId ((jsAddRelationship ⟨A, B, label, s1⟩ now1 mem).1).nodes B = true := by
    rw [h1nodes, containsId, any_set_eq hget (by rw [show src2.id = src.id from hid])]
    exact htgt
  obtain ⟨src3, h2nodes, hid3, hcount3, hstr3⟩ :=
    addRel_step ((jsAddRelationship ⟨A, B, label, s1⟩ now1 mem).1)
      ⟨A, B, label, s2⟩ now2 si src2 hsrc2 htgt2 (le_of_eq hcount)
  exact ⟨src3, h2nodes, hcount3, hstr3⟩

/-- Witness for C4: on the two-node graph, adding `knows` from
`person-alice` to `b` with strength 5 stores exactly one clamped edge, and
adding it again with strength 0.9 updates it in place. -/
theorem add_relationship_upsert_and_clamp_witness :
    (∃ src2 : EntityNode,
      (jsAddRelationship ⟨"person-alice", "b", "knows", some 5⟩ 2 wMemAB).1.nodes
        = wMemAB.nodes.set 0 src2
      ∧ src2.id = wAlice.id
      ∧ src2.relationships.countP
          (fun r => r.targetId == "b" && r.relationship == "knows") = 1
      ∧ (∀ r ∈ src2.relationships,
          (r.targetId == "b" && r.relationship == "knows") = true →
          r.strength = jsStrength (some 5)))
    ∧ (∃ src3 : EntityNode,
      (jsAddRelationship ⟨"person-alice", "b", "knows", some (9/10)⟩ 3
          (jsAddRelationship ⟨"person-alice", "b", "knows", none⟩ 2 wMemAB).1).1.nodes
        = ((jsAddRelationship ⟨"person-alice", "b", "knows", none⟩ 2 wMemAB).1).nodes.set 0 src3
      ∧ src3.relationships.countP
          (fun r => r.targetId == "b" && r.relationship == "knows") = 1
      ∧ (∀ r ∈ src3.relationships,
          (r.targetId == "b" && r.relationship == "knows") = true →
          r.strength = jsStrength (some (9/10)))) :=
  ⟨add_relationship_upsert_and_clamp.1 wMemAB ⟨"person-alice", "b", "knows", some 5⟩ 2 0 wAlice
      (by decide) (by decide) (by decide),
   add_relationship_upsert_and_clamp.2.2.2.2 wMemAB "person-alice" "b" "knows"
      none (some (9/10)) 2 3 0 wAlice (by decide) (by decide) (by decide)⟩

/-- C2: in a graph satisfying the node-id uniqueness invariant, deleting an
existing entity X removes the node with id X and strips, from every
remaining node, every relationship whose target is X; when the graph had no
dangling references before, it has none afterwards. Deleting a missing id
fails with an entity-not-found result and leaves the graph unchanged. -/
theorem delete_entity_cascade
    (mem : EntityMemory) (X : String) (now : Nat)
    (hinv : mem.nodes.countP (fun n => n.id == X) ≤ 1) :
    (containsId mem.nodes X = true →
      (∀ n ∈ (jsDeleteEntity X now mem).1.nodes, (n.id == X) = false)
      ∧ (∀ n ∈ (jsDeleteEntity X now mem).1.nodes, ∀ r ∈ n.relationships,
          (r.targetId == X) = false)
      ∧ (closedGraphB mem.nodes = true →
          closedGraphB (jsDeleteEntity X now mem).1.nodes = true))
    ∧ (containsId mem.nodes X = false →
        jsDeleteEntity X now mem = (mem, "Entity not found: " ++ X)) := by
  constructor
  · intro hcont
    cases hfind : findWithIndex (fun n => n.id == X) mem.nodes with
    | none => exact absurd hfind (findWithIndex_id_ne_none_of_contains hcont)
    | some ix =>
      obtain ⟨i, x⟩ := ix
      obtain ⟨hget, hpx⟩ := findWithIndex_eq_some hfind
      have hres : (jsDeleteEntity X now mem).1.nodes
          = (mem.nodes.eraseIdx i).map (fun n =>
              { n with relationships :=
                  n.relationships.filter (fun r => !(r.targetId == X)) }) := by
        simp only [jsDeleteEntity, hfind]
        exact eraseIdx_map _ mem.nodes i
      have herased : ∀ z ∈ mem.nodes.eraseIdx i, (z.id == X) = false := by
        have hcnt := countP_eraseIdx_succ (p := fun n => n.id == X) hget hpx
        have hone : mem.nodes.countP (fun n => n.id == X) = 1 := by
          have hmem : x ∈ mem.nodes := List.getElem?_mem hget
          have hpos : 0 < mem.nodes.countP (fun n => n.id == X) :=
            List.countP_pos_iff.mpr ⟨x, hmem, hpx⟩
          omega
        have hzero : (mem.nodes.eraseIdx i).countP (fun n => n.id == X) = 0 := by omega
        intro z hz
        have := List.countP_eq_zero.mp hzero z hz
        cases hzb : (z.id == X) with
        | false => rfl
        | true => exact absurd hzb this
      refine ⟨?_, ?_, ?_⟩
      · intro n hn
        rw [hres] at hn
        obtain ⟨z, hz, hzn⟩ := List.mem_map.mp hn
        rw [← hzn]
        exact herased z hz
      · intro n hn r hr
        rw [hres] at hn
        obtain ⟨z, hz, hzn⟩ := List.mem_map.mp hn
        rw [← hzn] at hr
        have := (List.mem_filter.mp hr).2
        simpa using this
      · intro hclosed
        rw [closedGraphB, List.all_eq_true]
        intro n hn
        rw [List.all_eq_true]
        intro r hr
        rw [List.any_eq_true]
        rw [hres] at hn
        obtain ⟨z, hz, hzn⟩ := List.mem_map.mp hn
        rw [← hzn] at hr
        obtain ⟨hrz, hrX⟩ := List.mem_filter.mp hr
        have hzmem : z ∈ mem.nodes := List.eraseIdx_subset mem.nodes i hz
        have hclosed2 := List.all_eq_true.mp hclosed z hzmem
        have hclosed3 := List.all_eq_true.mp hclosed2 r hrz
        obtain ⟨m, hm, hmr⟩ := List.any_eq_true.mp hclosed3
        have hmr2 : m.id = r.targetId := by simpa using hmr
        have hmX : (m.id == X) = false := by
          cases hmb : (m.id == X) with
          | false => rfl
          | true =>
            exfalso
            have : m.id = X := by simpa using hmb
            rw [this] at hmr2
            simp [← hmr2] at hrX
        have hmne : m ≠ x := by
          intro he
          rw [he] at hmX
          rw [hpx] at hmX
          cases hmX
        have hm2 : m ∈ mem.nodes.eraseIdx i := mem_eraseIdx_of_mem hget hm hmne
        refine ⟨{ m with relationships :=
            m.relationships.filter (fun r => !(r.targetId == X)) }, ?_, ?_⟩
        · rw [hres]
          exact List.mem_map.mpr ⟨m, hm2, rfl⟩
        · simpa using hmr
  · intro habsent
    have hfind : findWithIndex (fun n => n.id == X) mem.nodes = none :=
      findWithIndex_id_none_of_not_contains habsent
    simp [jsDeleteEntity, hfind]

/-- Witness for C2: deleting `b` from the two-node cyclic graph leaves no
node with id `b`, no relationship targeting `b`, and a closed graph. -/
theorem delete_entity_cascade_witness :
    ((∀ n ∈ (jsDeleteEntity "b" 9 wDelMem).1.nodes, (n.id == "b") = false)
      ∧ (∀ n ∈ (jsDeleteEntity "b" 9 wDelMem).1.nodes, ∀ r ∈ n.relationships,
          (r.targetId == "b") = false)
      ∧ (closedGraphB wDelMem.nodes = true →
          closedGraphB (jsDeleteEntity "b" 9 wDelMem).1.nodes = true))
    ∧ (containsId wDelMem.nodes "zzz" = false →
        jsDeleteEntity "zzz" 9 wDelMem = (wDelMem, "Entity not found: " ++ "zzz")) :=
  ⟨(delete_entity_cascade wDelMem "b" 9 (by decide)).1 (by decide),
   (delete_entity_cascade wDelMem "zzz" 9 (by decide)).2⟩

theorem eq_of_nodup_map_id :
    ∀ {l : List EntityNode}, (l.map (fun n => n.id)).Nodup →
      ∀ {a b : EntityNode}, a ∈ l → b ∈ l → a.id = b.id → a = b := by
  intro l
  induction l with
  | nil => intro _ a b ha; simp at ha
  | cons n rest ih =>
    intro hnd a b ha hb heq
    rw [List.map_cons, List.nodup_cons] at hnd
    obtain ⟨hnotin, hrest⟩ := hnd
    rcases List.mem_cons.mp ha with ha1 | ha1 <;> rcases List.mem_cons.mp hb with hb1 | hb1
    · rw [ha1, hb1]
    · exfalso
      subst ha1
      exact hnotin (heq ▸ List.mem_map.mpr ⟨b, hb1, rfl⟩)
    · exfalso
      subst hb1
      exact hnotin (heq ▸ List.mem_map.mpr ⟨a, ha1, rfl⟩)
    · exact ih hrest ha1 hb1 heq

theorem contains_map_id_eq_containsId (nodes : List EntityNode) (x : String) :
    (nodes.map (fun n => n.id)).contains x = containsId nodes x := by
  rw [Bool.eq_iff_iff]
  constructor
  · intro h
    have hx : x ∈ nodes.map (fun n => n.id) := by
      simpa using h
    obtain ⟨n, hn, hid⟩ := List.mem_map.mp hx
    simp only [containsId, List.any_eq_true]
    exact ⟨n, hn, by simp [hid]⟩
  · intro h
    obtain ⟨n, hn, hid⟩ := containsId_eq_true h
    have : x ∈ nodes.map (fun n => n.id) := List.mem_map.mpr ⟨n, hn, by simpa using hid⟩
    simpa using this

/-- The replacement pass of the summarizer bulk merge, characterized as a
pointwise map: under unique node ids and unique proposed ids, folding the
set-in-place updates equals replacing each stored node by the proposed node
with the same id, when there is one. -/
theorem bulk_foldl_eq :
    ∀ (us : List EntityNode) (nodes : List EntityNode),
      (nodes.map (fun n => n.id)).Nodup →
      (us.map (fun n => n.id)).Nodup →
      us.foldl (fun acc u =>
        match findWithIndex (fun n => n.id == u.id) acc with
        | some (i, _) => acc.set i u
        | none => acc) nodes
      = nodes.map (fun n =>
          match us.find? (fun u => u.id == n.id) with
          | some u => u
          | none => n) := by
  intro us
  induction us with
  | nil =>
    intro nodes _ _
    simp
  | cons u rest ih =>
    intro nodes hn hp
    rw [List.map_cons, List.nodup_cons] at hp
    obtain ⟨hnotin, hp_rest⟩ := hp
    rw [List.foldl_cons]
    cases hfind : findWithIndex (fun n => n.id == u.id) nodes with
    | some ix =>
      obtain ⟨i, x⟩ := ix
      obtain ⟨hget, hpx⟩ := findWithIndex_eq_some hfind
      have hxid : x.id = u.id := by simpa using hpx
      have hids : (nodes.set i u).map (fun n => n.id) = nodes.map (fun n => n.id) := by
        rw [List.map_set]
        apply set_getElem?_same
        rw [List.getElem?_map, hget]
        simp [hxid]
      have hn1 : ((nodes.set i u).map (fun n => n.id)).Nodup := by
        rw [hids]; exact hn
      simp only [hfind]
      rw [ih (nodes.set i u) hn1 hp_rest]
      apply List.ext_getElem?
      intro j
      rw [List.getElem?_map, List.getElem?_map, List.getElem?_set]
      by_cases hij : i = j
      · subst hij
        obtain ⟨hlt, _⟩ := List.getElem?_eq_some_iff.mp hget
        rw [if_pos rfl, if_pos hlt, hget]
        have hfu : List.find? (fun v => v.id == u.id) rest = none := by
          rw [List.find?_eq_none]
          intro v hv hvb
          exact hnotin (List.mem_map.mpr ⟨v, hv, by simpa using hvb⟩)
        have hfull : List.find? (fun v => v.id == x.id) (u :: rest) = some u := by
          rw [List.find?_cons]
          have : (u.id == x.id) = true := by simp [hxid]
          simp [this]
        have hrest2 : List.find? (fun v => v.id == u.id) rest = none := hfu
        simp only [Option.map_some']
        rw [hfull, hrest2]
      · rw [if_neg hij]
        cases hnj : nodes[j]? with
        | none => simp
        | some z =>
          simp only [Option.map_some']
          have hzne : (u.id == z.id) = false := by
            cases hb : (u.id == z.id) with
            | false => rfl
            | true =>
              exfalso
              have hz : u.id = z.id := by simpa using hb
              have h1 : (nodes.map (fun n => n.id))[i]? = some u.id := by
                rw [List.getElem?_map, hget]; simp [hxid]
              have h2 : (nodes.map (fun n => n.id))[j]? = some u.id := by
                rw [List.getElem?_map, hnj]; simp [hz.symm]
              obtain ⟨hlt, _⟩ := List.getElem?_eq_some_iff.mp h1
              exact hij (List.getElem?_inj hlt hn (h1.trans h2.symm))
          rw [List.find?_cons]
          simp [hzne]
    | none =>
      have hall := findWithIndex_eq_none.mp hfind
      simp only [hfind]
      rw [ih nodes hn hp_rest]
      apply List.map_congr_left
      intro n hn2
      have hne : (u.id == n.id) = false := by
        cases hb : (u.id == n.id) with
        | false => rfl
        | true =>
          exfalso
          have he : u.id = n.id := by simpa using hb
          have := hall n hn2
          simp [he.symm] at this
      rw [List.find?_cons]
      simp [hne]

/-- C7: the summarizer bulk merge, on graphs and proposed arrays with
unique ids, appends wholesale every proposed node whose id is not yet in
the graph, and fully replaces — with no field-level merge — the stored node
whose id a proposed node shares; consequently a property present on the
stored node but absent from the proposed node is lost. -/
theorem bulk_merge_replaces_wholesale
    (nodes proposed : List EntityNode)
    (hn : (nodes.map (fun n => n.id)).Nodup)
    (hp : (proposed.map (fun n => n.id)).Nodup) :
    (∀ p ∈ proposed, containsId nodes p.id = false → p ∈ bulkMergeNodes nodes proposed)
    ∧ (∀ p ∈ proposed, containsId nodes p.id = true →
        (∀ n ∈ bulkMergeNodes nodes proposed, n.id = p.id → n = p)
        ∧ (∃ n ∈ bulkMergeNodes nodes proposed, n.id = p.id))
    ∧ (∀ p ∈ proposed, containsId nodes p.id = true →
        ∀ st ∈ nodes, st.id = p.id →
        ∀ key v, propLookup st.properties key = some v →
          propLookup p.properties key = none →
          ∀ n ∈ bulkMergeNodes nodes proposed, n.id = p.id →
            propLookup n.properties key = none) := by
  have hus : ((proposed.filter (fun n =>
      (nodes.map (fun n2 => n2.id)).contains n.id)).map (fun n => n.id)).Nodup :=
    List.Nodup.sublist (List.Sublist.map _ (List.filter_sublist proposed)) hp
  have hfold := bulk_foldl_eq
    (proposed.filter (fun n => (nodes.map (fun n2 => n2.id)).contains n.id)) nodes hn hus
  have hres : bulkMergeNodes nodes proposed
      = nodes.map (fun n =>
          match (proposed.filter (fun m =>
              (nodes.map (fun n2 => n2.id)).contains m.id)).find?
              (fun u => u.id == n.id) with
          | some u => u
          | none => n)
        ++ proposed.filter (fun m => !((nodes.map (fun n2 => n2.id)).contains m.id)) := by
    rw [← hfold]
    rfl
  have hmain : ∀ p ∈ proposed, containsId nodes p.id = true →
      (∀ n ∈ bulkMergeNodes nodes proposed, n.id = p.id → n = p)
      ∧ (∃ n ∈ bulkMergeNodes nodes proposed, n.id = p.id) := by
    intro p hpm hcont
    have hpus : p ∈ proposed.filter (fun m =>
        (nodes.map (fun n2 => n2.id)).contains m.id) :=
      List.mem_filter.mpr ⟨hpm, by rw [contains_map_id_eq_containsId]; exact hcont⟩
    constructor
    · intro n hnr hnid
      rw [hres] at hnr
      rcases List.mem_append.mp hnr with hcase | hcase
      · obtain ⟨z, hz, hzn⟩ := List.mem_map.mp hcase
        cases hfq : (proposed.filter (fun m =>
            (nodes.map (fun n2 => n2.id)).contains m.id)).find? (fun u => u.id == z.id) with
        | some u =>
          rw [hfq] at hzn
          have hu_mem : u ∈ proposed :=
            (List.mem_filter.mp (List.mem_of_find?_eq_some hfq)).1
          have : n = u := hzn.symm
          subst this
          exact eq_of_nodup_map_id hp hu_mem hpm hnid
        | none =>
          exfalso
          rw [hfq] at hzn
          have hzid : z.id = p.id := by rw [← hzn] at hnid; exact hnid
          have := List.find?_eq_none.mp hfq p hpus
          simp [hzid.symm] at this
      · exfalso
        obtain ⟨_, hnot⟩ := List.mem_filter.mp hcase
        rw [hnid, contains_map_id_eq_containsId, hcont] at hnot
        cases hnot
    · obtain ⟨z, hz, hzb⟩ := containsId_eq_true hcont
      have hzid : z.id = p.id := by simpa using hzb
      cases hfq : (proposed.filter (fun m =>
          (nodes.map (fun n2 => n2.id)).contains m.id)).find? (fun u => u.id == z.id) with
      | some u =>
        refine ⟨u, ?_, ?_⟩
        · rw [hres]
          apply List.mem_append.mpr
          left
          apply List.mem_map.mpr
          exact ⟨z, hz, by rw [hfq]⟩
        · have := List.find?_some hfq
          have hu : u.id = z.id := by simpa using this
          rw [hu, hzid]
      | none =>
        exfalso
        have := List.find?_eq_none.mp hfq p hpus
        simp [hzid.symm] at this
  refine ⟨?_, hmain, ?_⟩
  · intro p hpm hcont
    rw [hres]
    apply List.mem_append.mpr
    right
    apply List.mem_filter.mpr
    refine ⟨hpm, ?_⟩
    rw [contains_map_id_eq_containsId, hcont]
    rfl
  · intro p hpm hcont st _ _ key v _ hploss n hnr hnid
    have := ((hmain p hpm hcont).1 n hnr hnid)
    rw [this]
    exact hploss

/-! Storage-key distinctness: history, summary, and index keys of distinct
threads never collide. -/

theorem histKey_inj {a b : String} (h : histKey a = histKey b) : a = b := by
  have hd := congrArg String.data h
  simp only [histKey, String.data_append] at hd
  exact String.ext (List.append_cancel_left (List.append_cancel_right hd))

theorem sumKey_inj {a b : String} (h : sumKey a = sumKey b) : a = b := by
  have hd := congrArg String.data h
  simp only [sumKey, String.data_append] at hd
  exact String.ext (List.append_cancel_left (List.append_cancel_right hd))

theorem histKey_ne_sumKey (a b : String) : histKey a ≠ sumKey b := by
  intro h
  have hd := congrArg String.data h
  simp only [histKey, sumKey, String.data_append, List.append_assoc] at hd
  have h2 := List.append_cancel_left hd
  have h3 := (List.append_inj' h2 (by rfl)).2
  exact absurd h3 (by decide)

theorem threadsKey_ne_histKey (a : String) : threadsKey ≠ histKey a := by
  intro h
  have hl := congrArg String.length h
  simp only [histKey, threadsKey, String.length_append] at hl
  have h1 : ("agent-chat/threads" : String).length = 18 := rfl
  have h2 : ("agent-chat/threads/" : String).length = 19 := rfl
  have h3 : ("/history" : String).length = 8 := rfl
  omega

theorem threadsKey_ne_sumKey (a : String) : threadsKey ≠ sumKey a := by
  intro h
  have hl := congrArg String.length h
  simp only [sumKey, threadsKey, String.length_append] at hl
  have h1 : ("agent-chat/threads" : String).length = 18 := rfl
  have h2 : ("agent-chat/threads/" : String).length = 19 := rfl
  have h3 : ("/summary" : String).length = 8 := rfl
  omega

/-! Read-over-write laws of the document store. -/

theorem storageRead_write_self (st : Storage) (k : String) (v : Doc) :
    storageRead (storageWrite st k v) k = some v := by
  simp [storageRead, storageWrite, List.find?_cons]

theorem storageRead_write_ne (st : Storage) (k k2 : String) (v : Doc) (h : k2 ≠ k) :
    storageRead (storageWrite st k v) k2 = storageRead st k2 := by
  simp only [storageRead, storageWrite]
  rw [List.find?_cons]
  have hb : ((k, v).fst == k2) = false := by
    cases hbb : ((k, v).fst == k2) with
    | false => rfl
    | true =>
      exfalso
      have hke : k = k2 := by simpa using hbb
      exact h hke.symm
  rw [hb]
  rw [List.find?_filter]
  have hpred : (fun kv : String × Doc =>
      decide ((!(kv.fst == k)) = true ∧ (kv.fst == k2) = true))
      = (fun kv : String × Doc => kv.fst == k2) := by
    funext kv
    by_cases hk2 : (kv.fst == k2) = true
    · have he : kv.fst = k2 := by simpa using hk2
      have hnk : (kv.fst == k) = false := by
        cases hkk : (kv.fst == k) with
        | false => rfl
        | true =>
          exfalso
          have hke : kv.fst = k := by simpa using hkk
          exact h (he ▸ hke)
      simp [hk2, hnk]
    · simp [hk2]
  rw [hpred]

/-! Frame lemmas: which fields each thread operation leaves untouched. -/

theorem saveThread_messages (tid : String) (now : Nat) (st : AppState) :
    (saveThread tid now st).messages = st.messages := by
  simp only [saveThread]
  split <;> split <;> split <;> rfl

theorem saveThread_summary (tid : String) (now : Nat) (st : AppState) :
    (saveThread tid now st).conversationSummary = st.conversationSummary := by
  simp only [saveThread]
  split <;> split <;> split <;> rfl

theorem saveThread_currentThreadId (tid : String) (now : Nat) (st : AppState) :
    (saveThread tid now st).currentThreadId = st.currentThreadId := by
  simp only [saveThread]
  split <;> split <;> split <;> rfl

theorem loadThread_storage (tid : String) (st : AppState) :
    (loadThread tid st).storage = st.storage := rfl

theorem loadThread_currentThreadId (tid : String) (st : AppState) :
    (loadThread tid st).currentThreadId = st.currentThreadId := rfl

theorem loadThread_messages (tid : String) (st : AppState) (ms : List ChatMessage)
    (h : storageRead st.storage (histKey tid) = some (Doc.historyDoc ms)) :
    (loadThread tid st).messages = ms := by
  simp [loadThread, h]

theorem loadThread_summary (tid : String) (st : AppState) (s : ConversationSummary)
    (h : storageRead st.storage (sumKey tid) = some (Doc.summaryDoc s)) :
    (loadThread tid st).conversationSummary = some s := by
  simp [loadThread, h]

theorem saveThread_read_other (tid : String) (now : Nat) (st : AppState) (k : String)
    (h1 : k ≠ histKey tid) (h2 : k ≠ sumKey tid) (h3 : k ≠ threadsKey) :
    storageRead (saveThread tid now st).storage k = storageRead st.storage k := by
  simp only [saveThread]
  split <;> split <;> split <;>
    simp only [storageRead_write_ne _ _ _ _ h1, storageRead_write_ne _ _ _ _ h2,
      storageRead_write_ne _ _ _ _ h3]

theorem saveThread_read_hist (tid : String) (now : Nat) (st : AppState)
    (h : st.messages ≠ []) :
    storageRead (saveThread tid now st).storage (histKey tid)
      = some (Doc.historyDoc st.messages) := by
  have hlen : st.messages.length > 0 := List.length_pos.mpr h
  simp only [saveThread]
  have hh1 : histKey tid ≠ sumKey tid := histKey_ne_sumKey tid tid
  have hh2 : histKey tid ≠ threadsKey := fun he => threadsKey_ne_histKey tid he.symm
  split <;> split <;> split <;>
    simp_all [storageRead_write_ne _ _ _ _ hh1, storageRead_write_ne _ _ _ _ hh2,
      storageRead_write_self]

theorem saveThread_read_sum (tid : String) (now : Nat) (st : AppState)
    (s : ConversationSummary) (h : st.conversationSummary = some s) :
    storageRead (saveThread tid now st).storage (sumKey tid)
      = some (Doc.summaryDoc s) := by
  simp only [saveThread]
  have hh2 : sumKey tid ≠ threadsKey := fun he => threadsKey_ne_sumKey tid he.symm
  split <;> split <;> split <;>
    simp_all [storageRead_write_ne _ _ _ _ hh2, storageRead_write_self]

/-- Witness for C7: merging a proposed array that restates `person-alice`
without its `mood` property and adds `new1` — the restated node fully
replaces the stored one (losing the property) and `new1` is appended. -/
theorem bulk_merge_replaces_wholesale_witness :
    (∀ p ∈ [wProposedAlice, wProposedNew], containsId [wStored] p.id = false →
      p ∈ bulkMergeNodes [wStored] [wProposedAlice, wProposedNew])
    ∧ (∀ p ∈ [wProposedAlice, wProposedNew], containsId [wStored] p.id = true →
        (∀ n ∈ bulkMergeNodes [wStored] [wProposedAlice, wProposedNew], n.id = p.id → n = p)
        ∧ (∃ n ∈ bulkMergeNodes [wStored] [wProposedAlice, wProposedNew], n.id = p.id))
    ∧ (∀ p ∈ [wProposedAlice, wProposedNew], containsId [wStored] p.id = true →
        ∀ st ∈ [wStored], st.id = p.id →
        ∀ key v, propLookup st.properties key = some v →
          propLookup p.properties key = none →
          ∀ n ∈ bulkMergeNodes [wStored] [wProposedAlice, wProposedNew], n.id = p.id →
            propLookup n.properties key = none) :=
  bulk_merge_replaces_wholesale [wStored] [wProposedAlice, wProposedNew]
    (by decide) (by decide)

/-- C6 counterexample: with an empty in-memory log at switch-out but a
stale non-empty stored history for thread `T`, switching away to `U` and
back to `T` does not restore the empty log — `saveThread` skips persisting
an empty log, so the stale stored history is loaded instead. -/
theorem switch_roundtrip_counterexample :
    ¬((switchThread "T" 2 (switchThread "U" 1 wStaleState)).messages
        = wStaleState.messages
      ∧ (switchThread "T" 2 (switchThread "U" 1 wStaleState)).conversationSummary
        = wStaleState.conversationSummary) := by
  decide

/-- C6 (amended): switching away from the current thread `T` to a different
thread `U` and back restores exactly the message log and summary present at
switch-out, provided the log was non-empty and the summary non-null at
switch-out (an empty log or null summary is not persisted by `saveThread`,
so stale stored data may be restored instead — see the counterexample). -/
theorem switch_roundtrip_restores
    (st : AppState) (T U : String) (now1 now2 : Nat) (S : ConversationSummary)
    (hcur : st.currentThreadId = some T)
    (hne : st.messages ≠ [])
    (hsum : st.conversationSummary = some S)
    (hTU : T ≠ U) :
    (switchThread T now2 (switchThread U now1 st)).messages = st.messages
    ∧ (switchThread T now2 (switchThread U now1 st)).conversationSummary = some S := by
  have hrT := saveThread_read_hist T now1 st hne
  have hsT := saveThread_read_sum T now1 st S hsum
  have hstep1 : switchThread U now1 st
      = loadThread U { saveThread T now1 st with currentThreadId := some U } := by
    simp [switchThread, hcur]
  have hst1_storage : (switchThread U now1 st).storage = (saveThread T now1 st).storage := by
    rw [hstep1]
    rfl
  have hst1_cur : (switchThread U now1 st).currentThreadId = some U := by
    rw [hstep1]
    rfl
  have hstep2 : switchThread T now2 (switchThread U now1 st)
      = loadThread T { saveThread U now2 (switchThread U now1 st) with
          currentThreadId := some T } := by
    generalize hX : switchThread U now1 st = X at hst1_cur ⊢
    simp [switchThread, hst1_cur]
  have hkey1 : histKey T ≠ histKey U := fun he => hTU (histKey_inj he)
  have hkey2 : histKey T ≠ sumKey U := histKey_ne_sumKey T U
  have hkey3 : histKey T ≠ threadsKey := fun he => threadsKey_ne_histKey T he.symm
  have hkey4 : sumKey T ≠ histKey U := fun he => histKey_ne_sumKey U T he.symm
  have hkey5 : sumKey T ≠ sumKey U := fun he => hTU (sumKey_inj he)
  have hkey6 : sumKey T ≠ threadsKey := fun he => threadsKey_ne_sumKey T he.symm
  have hrT2 : storageRead (saveThread U now2 (switchThread U now1 st)).storage (histKey T)
      = some (Doc.historyDoc st.messages) := by
    rw [saveThread_read_other U now2 _ _ hkey1 hkey2 hkey3, hst1_storage]
    exact hrT
  have hsT2 : storageRead (saveThread U now2 (switchThread U now1 st)).storage (sumKey T)
      = some (Doc.summaryDoc S) := by
    rw [saveThread_read_other U now2 _ _ hkey4 hkey5 hkey6, hst1_storage]
    exact hsT
  constructor
  · rw [hstep2]
    exact loadThread_messages T _ st.messages hrT2
  · rw [hstep2]
    exact loadThread_summary T _ S hsT2

/-- Witness for C6 (amended): with a one-message log and a summary on the
current thread `T`, the round trip through `U` restores both exactly. -/
theorem switch_roundtrip_restores_witness :
    (switchThread "T" 2 (switchThread "U" 1 wRoundState)).messages = wRoundState.messages
    ∧ (switchThread "T" 2 (switchThread "U" 1 wRoundState)).conversationSummary
        = some ⟨"s", 0, 1, "T"⟩ :=
  switch_roundtrip_restores wRoundState "T" "U" 1 2 ⟨"s", 0, 1, "T"⟩
    (by decide) (by decide) (by decide) (by decide)

/-- C3: evaluating `deleteThread` on its failing input. Deleting the only
thread `t1` (which is current and holds one in-memory message and a
summary) does leave exactly one fresh thread `t2` current, but the deleted
thread's history and summary are back in storage afterwards: the
save-before-switch step of `switchThread` re-persists them after
`deleteThread` removed them. -/
theorem deleteThread_resurrects_history :
    ((deleteThread "t1" 5 "t2" wDelState).threads.length = 1)
    ∧ (∀ t ∈ (deleteThread "t1" 5 "t2" wDelState).threads, t.id = "t2")
    ∧ ((deleteThread "t1" 5 "t2" wDelState).currentThreadId = some "t2")
    ∧ storageRead (deleteThread "t1" 5 "t2" wDelState).storage (histKey "t1")
        = some (Doc.historyDoc [wMsg])
    ∧ storageRead (deleteThread "t1" 5 "t2" wDelState).storage (sumKey "t1")
        = some (Doc.summaryDoc wSum) := by
  decide

/-- C9 counterexample: `getThreads` returns the stored array order, which on
this state is ascending in `lastMessageAt`, not the claimed descending
order. -/
theorem getThreads_not_sorted_counterexample :
    sortedByLastMessageAtDesc (getThreads wOrderState) = false := by
  decide

/-- C9 (amended): listing the threads returns all threads, in the stored
(insertion) order of the thread array; no sorting by `lastMessageAt` is
applied. -/
theorem getThreads_returns_stored_order (st : AppState) :
    getThreads st = st.threads ∧ ∀ t : Thread, t ∈ getThreads st ↔ t ∈ st.threads :=
  ⟨rfl, fun _ => Iff.rfl⟩

/-- C8: a completed turn appends the user and assistant messages, persists
the thread, and starts a summarization run exactly when the new message
count minus the message count recorded in the last summary (0 when none) is
at least the configured frequency of 5; the turn itself always completes
with exactly this one trigger decision. -/
theorem sendMessage_summary_trigger
    (st : AppState) (tid u r : String) (now : Nat)
    (hcur : st.currentThreadId = some tid) :
    ∃ st3 : AppState, ∃ fired : Bool,
      sendMessageTurn u r now st = some (st3, fired)
      ∧ st3.messages = st.messages ++ [⟨"user", u, now⟩, ⟨"assistant", r, now⟩]
      ∧ st3.conversationSummary = st.conversationSummary
      ∧ (fired = true ↔
          (5 : Int) ≤ (st.messages.length : Int) + 2
            - (summaryMessageCount st.conversationSummary : Int)) := by
  refine ⟨saveThread tid now { st with messages :=
      (st.messages ++ [⟨"user", u, now⟩]) ++ [⟨"assistant", r, now⟩] },
    shouldTriggerSummary defaultMemoryConfig
      (saveThread tid now { st with messages :=
        (st.messages ++ [⟨"user", u, now⟩]) ++ [⟨"assistant", r, now⟩] }).messages
      (saveThread tid now { st with messages :=
        (st.messages ++ [⟨"user", u, now⟩]) ++ [⟨"assistant", r, now⟩] }).conversationSummary,
    ?_, ?_, ?_, ?_⟩
  · simp [sendMessageTurn, hcur]
  · rw [saveThread_messages]
    simp
  · rw [saveThread_summary]
  · rw [shouldTriggerSummary, saveThread_messages, saveThread_summary]
    simp only [defaultMemoryConfig, messagesSinceLastUpdate, List.length_append,
      List.length_cons, List.length_nil]
    rw [decide_eq_true_eq]
    constructor
    · intro h
      omega
    · intro h
      omega

/-- Witness for C8: with no summary, a turn on a two-message log (delta 4)
does not fire, a turn on a three-message log (delta 5) fires, and a turn on
a four-message log (delta 6) fires. -/
theorem sendMessage_summary_trigger_witness :
    (∃ st3 : AppState, ∃ fired : Bool,
      sendMessageTurn "hi" "yo" 9 wTurnState4 = some (st3, fired)
      ∧ st3.messages = wTurnState4.messages ++ [⟨"user", "hi", 9⟩, ⟨"assistant", "yo", 9⟩]
      ∧ st3.conversationSummary = wTurnState4.conversationSummary
      ∧ (fired = true ↔
          (5 : Int) ≤ (wTurnState4.messages.length : Int) + 2
            - (summaryMessageCount wTurnState4.conversationSummary : Int)))
    ∧ (∃ st3 : AppState, ∃ fired : Bool,
      sendMessageTurn "hi" "yo" 9 wTurnState5 = some (st3, fired)
      ∧ st3.messages = wTurnState5.messages ++ [⟨"user", "hi", 9⟩, ⟨"assistant", "yo", 9⟩]
      ∧ st3.conversationSummary = wTurnState5.conversationSummary
      ∧ (fired = true ↔
          (5 : Int) ≤ (wTurnState5.messages.length : Int) + 2
            - (summaryMessageCount wTurnState5.conversationSummary : Int))) :=
  ⟨sendMessage_summary_trigger wTurnState4 "T" "hi" "yo" 9 (by decide),
   sendMessage_summary_trigger wTurnState5 "T" "hi" "yo" 9 (by decide)⟩

end Inkhat
